import Mathlib

/-!
Shallow embedding of the boa AST core: node catalog, static-semantics
queries (`contains_arguments`, `contains`, `lexically_declared_names`),
the visitor framework (`visit_with` / `visit_with_mut`), and the
source-text reproducer (`to_indented_string`).

Definitions are translated from the Rust sources under
`boa_engine/src/syntax/ast/`.  Parts of the repository that the sample
does not include (the `Expression`/`Statement` enum dispatchers, `Call`,
the function-family structs, `LexicalDeclaration`/`Binding`/`Pattern`,
and the visitor trait plumbing) are modelled from the spec; each such
definition carries a doc comment saying so.
-/

namespace BoaAst

/-- Interned identifier key (`boa_interner::Sym`): an opaque compact key,
equality is key equality. -/
abbrev Sym := Nat

/-- Modelled from the spec: the fixed interner key of the implicit
`arguments` identifier (`Sym::ARGUMENTS` in the interner crate, which is
not part of the sample). -/
def SYM_ARGUMENTS : Sym := 1

/-- The `ContainsSymbol` construct marker consumed by `contains`
(referenced by the sampled sources; its enum declaration is outside the
sample, modelled from the spec's examples: `yield`, `super`, ...). -/
inductive ContainsSymbol where
  | superProperty
  | superCall
  | yieldExpression
  | awaitExpression
  | newTarget
deriving DecidableEq, BEq

mutual

/-- Modelled from the spec: the closed `Expression` tagged variant
(Identifier, Await, New, Conditional, Call, literals); the enum itself is
outside the sample, but `Await`, `New` and `Conditional` are the sampled
node structs. -/
inductive Expression where
  | identifier (sym : Sym) : Expression
  | literal (value : Int) : Expression
  | awaitE (a : AwaitExpr) : Expression
  | newE (n : NewExpr) : Expression
  | conditionalE (c : Conditional) : Expression
  | callE (c : Call) : Expression

/-- The `Await` node (`expression/await.rs`): owns one target expression. -/
inductive AwaitExpr where
  | mk (target : Expression) : AwaitExpr

/-- The `New` node (`expression/new.rs`): owns exactly one `Call`; the only
constructor (`From<Call> for New`) takes a `Call`. -/
inductive NewExpr where
  | mk (call : Call) : NewExpr

/-- The `Conditional` node (`operator/conditional.rs`): owns condition,
if_true and if_false expressions. -/
inductive Conditional where
  | mk (condition if_true if_false : Expression) : Conditional

/-- Modelled from the spec: the `Call` node (outside the sample), owning a
function expression and an argument list; `New` delegates `constructor()`
and `args()` to it. -/
inductive Call where
  | mk (function : Expression) (args : ExprList) : Call

/-- Argument list of a `Call` (a `Box<[Expression]>` in the source). -/
inductive ExprList where
  | nil : ExprList
  | cons (head : Expression) (tail : ExprList) : ExprList

end

mutual

/-- Modelled from the spec: the closed `Statement` tagged variant (the enum
is outside the sample); `WhileLoop` is the sampled node struct, and an
expression statement stands in for the other leaf statements. -/
inductive Statement where
  | expr (e : Expression) : Statement
  | whileLoop (w : WhileLoop) : Statement

/-- The `WhileLoop` node (`statement/iteration/while_loop.rs`): owns one
condition expression and one body statement. -/
inductive WhileLoop where
  | mk (condition : Expression) (body : Statement) : WhileLoop

end

/-- Accessor `Conditional::condition`. -/
def Conditional.condition : Conditional → Expression
  | .mk c _ _ => c

/-- Accessor `Conditional::if_true`. -/
def Conditional.if_true : Conditional → Expression
  | .mk _ t _ => t

/-- Accessor `Conditional::if_false`. -/
def Conditional.if_false : Conditional → Expression
  | .mk _ _ f => f

/-- Accessor `Await::target`. -/
def AwaitExpr.target : AwaitExpr → Expression
  | .mk t => t

/-- Accessor `New::call`. -/
def NewExpr.call : NewExpr → Call
  | .mk c => c

/-- Accessor `Call::function` (modelled from the spec, with `New`'s
delegation as the sampled caller). -/
def Call.function : Call → Expression
  | .mk f _ => f

/-- Accessor `Call::args` (modelled from the spec). -/
def Call.args : Call → ExprList
  | .mk _ a => a

/-- Source `New::constructor`: returns the wrapped call's function expression. -/
def NewExpr.constructor (n : NewExpr) : Expression :=
  n.call.function

/-- Source `New::args`: returns the wrapped call's argument list. -/
def NewExpr.args (n : NewExpr) : ExprList :=
  n.call.args

/-- Accessor `WhileLoop::condition`. -/
def WhileLoop.condition : WhileLoop → Expression
  | .mk c _ => c

/-- Accessor `WhileLoop::body`. -/
def WhileLoop.body : WhileLoop → Statement
  | .mk _ b => b

mutual

/-- Modelled from the spec: the `Expression::contains_arguments` dispatcher
(outside the sample) — true iff the subtree references the `arguments`
identifier, OR over owned children, with the sampled per-node methods
plugged in. -/
def Expression.contains_arguments : Expression → Bool
  | .identifier sym => sym == SYM_ARGUMENTS
  | .literal _ => false
  | .awaitE a => a.contains_arguments
  | .newE n => n.contains_arguments
  | .conditionalE c => c.contains_arguments
  | .callE c => c.contains_arguments

/-- Source `Await::contains_arguments` (`await.rs`): the query on the target. -/
def AwaitExpr.contains_arguments : AwaitExpr → Bool
  | .mk t => t.contains_arguments

/-- Source `New::contains_arguments` (`new.rs`): the query on the inner call. -/
def NewExpr.contains_arguments : NewExpr → Bool
  | .mk c => c.contains_arguments

/-- Source `Conditional::contains_arguments` (`conditional.rs`): OR over
condition, if_true, if_false. -/
def Conditional.contains_arguments : Conditional → Bool
  | .mk c t f => c.contains_arguments || t.contains_arguments || f.contains_arguments

/-- Modelled from the spec: `Call::contains_arguments` (outside the
sample), OR over the function expression and every argument. -/
def Call.contains_arguments : Call → Bool
  | .mk f args => f.contains_arguments || args.anyContainsArguments

/-- OR of `contains_arguments` over an argument list. -/
def ExprList.anyContainsArguments : ExprList → Bool
  | .nil => false
  | .cons h t => h.contains_arguments || t.anyContainsArguments

end

mutual

/-- Modelled from the spec: the `Expression::contains` dispatcher (outside
the sample) — true iff the subtree syntactically contains the flagged
construct, OR over owned children plus the marker check at the flagged
node itself. -/
def Expression.contains : Expression → ContainsSymbol → Bool
  | .identifier _, _ => false
  | .literal _, _ => false
  | .awaitE a, sym => sym == ContainsSymbol.awaitExpression || a.contains sym
  | .newE n, sym => n.contains sym
  | .conditionalE c, sym => c.contains sym
  | .callE c, sym => c.contains sym

/-- Source `Await::contains` (`await.rs`): the query on the target. -/
def AwaitExpr.contains : AwaitExpr → ContainsSymbol → Bool
  | .mk t, sym => t.contains sym

/-- Source `New::contains` (`new.rs`): the query on the inner call. -/
def NewExpr.contains : NewExpr → ContainsSymbol → Bool
  | .mk c, sym => c.contains sym

/-- Source `Conditional::contains` (`conditional.rs`): OR over condition, if_true,
if_false. -/
def Conditional.contains : Conditional → ContainsSymbol → Bool
  | .mk c t f, sym => c.contains sym || t.contains sym || f.contains sym

/-- Modelled from the spec: `Call::contains` (outside the sample), OR over
the function expression and every argument. -/
def Call.contains : Call → ContainsSymbol → Bool
  | .mk f args, sym => f.contains sym || args.anyContains sym

/-- OR of `contains` over an argument list. -/
def ExprList.anyContains : ExprList → ContainsSymbol → Bool
  | .nil, _ => false
  | .cons h t, sym => h.contains sym || t.anyContains sym

end

mutual

/-- Modelled from the spec: the `Statement::contains_arguments` dispatcher
(outside the sample). -/
def Statement.contains_arguments : Statement → Bool
  | .expr e => e.contains_arguments
  | .whileLoop w => w.contains_arguments

/-- Source `WhileLoop::contains_arguments` (`while_loop.rs`): OR over condition
and body. -/
def WhileLoop.contains_arguments : WhileLoop → Bool
  | .mk c b => c.contains_arguments || b.contains_arguments

end

mutual

/-- Modelled from the spec: the `Statement::contains` dispatcher (outside
the sample). -/
def Statement.contains : Statement → ContainsSymbol → Bool
  | .expr e, sym => e.contains sym
  | .whileLoop w, sym => w.contains sym

/-- Source `WhileLoop::contains` (`while_loop.rs`): OR over condition and body. -/
def WhileLoop.contains : WhileLoop → ContainsSymbol → Bool
  | .mk c b, sym => c.contains sym || b.contains sym

end

mutual

/-- Modelled from the spec: a `Binding` is either a plain identifier
symbol or a destructuring pattern owning nested bindings
(`declaration/variable.rs`, outside the sample). -/
inductive Binding where
  | identifier (ident : Sym) : Binding
  | pattern (p : Pattern) : Binding

/-- Modelled from the spec: a destructuring pattern owning an ordered list
of elements, flattenable to an ordered sequence of bound identifiers. -/
inductive Pattern where
  | mk (elems : PatternElemList) : Pattern

/-- Modelled from the spec: one element of a destructuring pattern —
either a shorthand binding (`a` in `\x7ba\x7d`) or a keyed binding
(`b: c` in `\x7bb: c\x7d`, binding `c`, possibly itself a pattern). -/
inductive PatternElem where
  | shorthand (name : Sym) : PatternElem
  | keyed (key : Sym) (binding : Binding) : PatternElem

/-- Element list of a destructuring pattern. -/
inductive PatternElemList where
  | nil : PatternElemList
  | cons (head : PatternElem) (tail : PatternElemList) : PatternElemList

end

mutual

/-- Modelled from the spec: `Pattern::idents` — flatten a pattern to its
bound identifiers in binding (left-to-right) order. -/
def Pattern.idents : Pattern → List Sym
  | .mk elems => elems.idents

/-- Flattened bound identifiers of a pattern element list, in order. -/
def PatternElemList.idents : PatternElemList → List Sym
  | .nil => []
  | .cons h t => h.idents ++ t.idents

/-- Bound identifiers of one pattern element: a shorthand binds its own
name; a keyed element binds its binding's identifiers, not its key. -/
def PatternElem.idents : PatternElem → List Sym
  | .shorthand name => [name]
  | .keyed _ b => b.idents

/-- Bound identifiers of a binding. -/
def Binding.idents : Binding → List Sym
  | .identifier i => [i]
  | .pattern p => p.idents

end

/-- Modelled from the spec: one variable declarator of a lexical
declaration — a binding plus an optional initializer expression
(`declaration/variable.rs`, outside the sample). -/
structure Variable where
  binding : Binding
  init : Option Expression

/-- Modelled from the spec: a `LexicalDeclaration` (`let`/`const`) owning
an ordered variable list (`declaration/variable.rs`, outside the
sample). -/
structure LexicalDeclaration where
  variable_list : List Variable

/-- Modelled from the spec: `Variable::contains_arguments` — the query on
the initializer, if any (the binding itself only introduces names). -/
def Variable.contains_arguments (v : Variable) : Bool :=
  match v.init with
  | some e => e.contains_arguments
  | none => false

/-- Modelled from the spec: `LexicalDeclaration::contains_arguments` — OR
over the variable list; lexical initializers execute in the enclosing
scope, so the query recurses into them. -/
def LexicalDeclaration.contains_arguments (l : LexicalDeclaration) : Bool :=
  l.variable_list.any Variable.contains_arguments

/-- Modelled from the spec: `Variable::contains`. -/
def Variable.contains (v : Variable) (sym : ContainsSymbol) : Bool :=
  match v.init with
  | some e => e.contains sym
  | none => false

/-- Modelled from the spec: `LexicalDeclaration::contains` — OR over the
variable list. -/
def LexicalDeclaration.contains (l : LexicalDeclaration) (sym : ContainsSymbol) : Bool :=
  l.variable_list.any (fun v => v.contains sym)

/-- Modelled from the spec: the `Function` struct (`function/mod.rs`,
outside the sample) — an optional name and an owned body. -/
structure Function where
  name : Option Sym
  body : List Statement

/-- Modelled from the spec: the `Generator` struct (outside the sample). -/
structure Generator where
  name : Option Sym
  body : List Statement

/-- Modelled from the spec: the `AsyncFunction` struct (outside the
sample). -/
structure AsyncFunction where
  name : Option Sym
  body : List Statement

/-- Modelled from the spec: the `AsyncGenerator` struct (outside the
sample). -/
structure AsyncGenerator where
  name : Option Sym
  body : List Statement

/-- Modelled from the spec: the `Class` struct (outside the sample) — an
optional name and field initializer expressions, which execute in the
enclosing scope. -/
structure Class where
  name : Option Sym
  fieldInitializers : List Expression

/-- Modelled from the spec: `Class::contains_arguments` — the specialized
recursive check over the class's field initializers, which execute in the
enclosing scope (no boundary reset). -/
def Class.contains_arguments (c : Class) : Bool :=
  c.fieldInitializers.any Expression.contains_arguments

/-- Modelled from the spec: `Class::contains` — the recursive check over
the class's field initializers. -/
def Class.contains (c : Class) (sym : ContainsSymbol) : Bool :=
  c.fieldInitializers.any (fun e => e.contains sym)

/-- The `Declaration` Parse Node (`declaration/mod.rs`): closed tagged
variant over Function, Generator, AsyncFunction, AsyncGenerator, Class and
LexicalDeclaration. -/
inductive Declaration where
  | function (f : Function)
  | generator (g : Generator)
  | asyncFunction (af : AsyncFunction)
  | asyncGenerator (ag : AsyncGenerator)
  | classD (c : Class)
  | lexical (l : LexicalDeclaration)

/-- Source `Declaration::lexically_declared_names` (`declaration/mod.rs`):
function declarations yield `(name, true)`; generator / async function /
async generator / class declarations yield `(name, false)` if named, empty
otherwise; a lexical declaration pushes one `(name, false)` entry per
bound identifier of each declarator, flattening patterns via `idents`. -/
def Declaration.lexically_declared_names : Declaration → List (Sym × Bool)
  | .function f =>
      match f.name with
      | some name => [(name, true)]
      | none => []
  | .generator g =>
      match g.name with
      | some name => [(name, false)]
      | none => []
  | .asyncFunction af =>
      match af.name with
      | some name => [(name, false)]
      | none => []
  | .asyncGenerator ag =>
      match ag.name with
      | some name => [(name, false)]
      | none => []
  | .classD cl =>
      match cl.name with
      | some name => [(name, false)]
      | none => []
  | .lexical lexdecl =>
      lexdecl.variable_list.foldl
        (fun names decl =>
          match decl.binding with
          | .identifier ident => names ++ [(ident, false)]
          | .pattern pat => names ++ (pat.idents.map (fun name => (name, false))))
        []

/-- Source `Declaration::contains_arguments` (`declaration/mod.rs`): false at
every function-family boundary; delegates to the recursive check for
`Class` and `Lexical`. -/
def Declaration.contains_arguments : Declaration → Bool
  | .function _ | .generator _ | .asyncGenerator _ | .asyncFunction _ => false
  | .lexical decl => decl.contains_arguments
  | .classD cl => cl.contains_arguments

/-- Source `Declaration::contains` (`declaration/mod.rs`): false at every
function-family boundary; delegates to the recursive check for `Class`
and `Lexical`. -/
def Declaration.contains : Declaration → ContainsSymbol → Bool
  | .function _, _ | .generator _, _ | .asyncGenerator _, _ | .asyncFunction _, _ => false
  | .classD cl, sym => cl.contains sym
  | .lexical decl, sym => decl.contains sym

/-- Source `core::ops::ControlFlow`: a visit method either continues the
traversal or aborts it carrying a break payload. -/
inductive ControlFlow (β : Type) where
  | cont : ControlFlow β
  | brk (value : β) : ControlFlow β
deriving DecidableEq

/-- Modelled from the spec: the read-only `Visitor` trait (outside the
sample) as a record of visit methods.  A Rust visitor is an exclusively
borrowed object mutated by each call, so each method threads an explicit
visitor state `σ` and returns the updated state with a control flow. -/
structure Visitor (σ β : Type) where
  visitExpression : σ → Expression → σ × ControlFlow β
  visitStatement : σ → Statement → σ × ControlFlow β
  visitCall : σ → Call → σ × ControlFlow β
  visitFunction : σ → Function → σ × ControlFlow β
  visitGenerator : σ → Generator → σ × ControlFlow β
  visitAsyncFunction : σ → AsyncFunction → σ × ControlFlow β
  visitAsyncGenerator : σ → AsyncGenerator → σ × ControlFlow β
  visitClass : σ → Class → σ × ControlFlow β
  visitLexicalDeclaration : σ → LexicalDeclaration → σ × ControlFlow β

/-- Modelled from the spec: the mutable `VisitorMut` trait (outside the
sample).  Each method receives an exclusive reference to a node, so here
it returns the (possibly replaced) node alongside the new state and the
control flow. -/
structure VisitorMut (σ β : Type) where
  visitExpressionMut : σ → Expression → σ × Expression × ControlFlow β
  visitStatementMut : σ → Statement → σ × Statement × ControlFlow β
  visitCallMut : σ → Call → σ × Call × ControlFlow β
  visitFunctionMut : σ → Function → σ × Function × ControlFlow β
  visitGeneratorMut : σ → Generator → σ × Generator × ControlFlow β
  visitAsyncFunctionMut : σ → AsyncFunction → σ × AsyncFunction × ControlFlow β
  visitAsyncGeneratorMut : σ → AsyncGenerator → σ × AsyncGenerator × ControlFlow β
  visitClassMut : σ → Class → σ × Class × ControlFlow β
  visitLexicalDeclarationMut : σ → LexicalDeclaration → σ × LexicalDeclaration × ControlFlow β

/-- Source `VisitWith for Conditional::visit_with` (`conditional.rs`): visit
condition, then if_true (`try_break!` after each), then if_false. -/
def Conditional.visit_with (c : Conditional) (v : Visitor σ β) (s : σ) :
    σ × ControlFlow β :=
  match v.visitExpression s c.condition with
  | (s1, .brk b) => (s1, .brk b)
  | (s1, .cont) =>
    match v.visitExpression s1 c.if_true with
    | (s2, .brk b) => (s2, .brk b)
    | (s2, .cont) => v.visitExpression s2 c.if_false

/-- Source `VisitWith for Conditional::visit_with_mut` (`conditional.rs`): same
descent with exclusive references; replacements made before a break are
kept. -/
def Conditional.visit_with_mut (c : Conditional) (v : VisitorMut σ β) (s : σ) :
    σ × Conditional × ControlFlow β :=
  match v.visitExpressionMut s c.condition with
  | (s1, c1, .brk b) => (s1, .mk c1 c.if_true c.if_false, .brk b)
  | (s1, c1, .cont) =>
    match v.visitExpressionMut s1 c.if_true with
    | (s2, t1, .brk b) => (s2, .mk c1 t1 c.if_false, .brk b)
    | (s2, t1, .cont) =>
      match v.visitExpressionMut s2 c.if_false with
      | (s3, f1, fl) => (s3, .mk c1 t1 f1, fl)

/-- Source `VisitWith for WhileLoop::visit_with` (`while_loop.rs`): visit the
condition (`try_break!`), then the body. -/
def WhileLoop.visit_with (w : WhileLoop) (v : Visitor σ β) (s : σ) :
    σ × ControlFlow β :=
  match v.visitExpression s w.condition with
  | (s1, .brk b) => (s1, .brk b)
  | (s1, .cont) => v.visitStatement s1 w.body

/-- Source `VisitWith for WhileLoop::visit_with_mut` (`while_loop.rs`). -/
def WhileLoop.visit_with_mut (w : WhileLoop) (v : VisitorMut σ β) (s : σ) :
    σ × WhileLoop × ControlFlow β :=
  match v.visitExpressionMut s w.condition with
  | (s1, c1, .brk b) => (s1, .mk c1 w.body, .brk b)
  | (s1, c1, .cont) =>
    match v.visitStatementMut s1 w.body with
    | (s2, b1, fl) => (s2, .mk c1 b1, fl)

/-- Source `VisitWith for Await::visit_with` (`await.rs`): visit the target. -/
def AwaitExpr.visit_with (a : AwaitExpr) (v : Visitor σ β) (s : σ) :
    σ × ControlFlow β :=
  v.visitExpression s a.target

/-- Source `VisitWith for Await::visit_with_mut` (`await.rs`). -/
def AwaitExpr.visit_with_mut (a : AwaitExpr) (v : VisitorMut σ β) (s : σ) :
    σ × AwaitExpr × ControlFlow β :=
  match v.visitExpressionMut s a.target with
  | (s1, t1, fl) => (s1, .mk t1, fl)

/-- Source `VisitWith for New::visit_with` (`new.rs`): visit the inner call. -/
def NewExpr.visit_with (n : NewExpr) (v : Visitor σ β) (s : σ) :
    σ × ControlFlow β :=
  v.visitCall s n.call

/-- Source `VisitWith for New::visit_with_mut` (`new.rs`). -/
def NewExpr.visit_with_mut (n : NewExpr) (v : VisitorMut σ β) (s : σ) :
    σ × NewExpr × ControlFlow β :=
  match v.visitCallMut s n.call with
  | (s1, c1, fl) => (s1, .mk c1, fl)

/-- Source `VisitWith for Declaration::visit_with` (`declaration/mod.rs`):
dispatch to the variant's visit method. -/
def Declaration.visit_with (d : Declaration) (v : Visitor σ β) (s : σ) :
    σ × ControlFlow β :=
  match d with
  | .function f => v.visitFunction s f
  | .generator g => v.visitGenerator s g
  | .asyncFunction af => v.visitAsyncFunction s af
  | .asyncGenerator ag => v.visitAsyncGenerator s ag
  | .classD c => v.visitClass s c
  | .lexical ld => v.visitLexicalDeclaration s ld

/-- Source `VisitWith for Declaration::visit_with_mut` (`declaration/mod.rs`). -/
def Declaration.visit_with_mut (d : Declaration) (v : VisitorMut σ β) (s : σ) :
    σ × Declaration × ControlFlow β :=
  match d with
  | .function f =>
      match v.visitFunctionMut s f with
      | (s1, f1, fl) => (s1, .function f1, fl)
  | .generator g =>
      match v.visitGeneratorMut s g with
      | (s1, g1, fl) => (s1, .generator g1, fl)
  | .asyncFunction af =>
      match v.visitAsyncFunctionMut s af with
      | (s1, af1, fl) => (s1, .asyncFunction af1, fl)
  | .asyncGenerator ag =>
      match v.visitAsyncGeneratorMut s ag with
      | (s1, ag1, fl) => (s1, .asyncGenerator ag1, fl)
  | .classD c =>
      match v.visitClassMut s c with
      | (s1, c1, fl) => (s1, .classD c1, fl)
  | .lexical ld =>
      match v.visitLexicalDeclarationMut s ld with
      | (s1, ld1, fl) => (s1, .lexical ld1, fl)

/-- One observable visitor call, for reasoning about traversal order. -/
inductive VisitEvent where
  | expr (e : Expression)
  | stmt (st : Statement)
  | call (c : Call)
  | func (f : Function)
  | gen (g : Generator)
  | afunc (af : AsyncFunction)
  | agen (ag : AsyncGenerator)
  | cls (c : Class)
  | lexd (l : LexicalDeclaration)

/-- Wrap a visitor so that every call is also appended to an event log,
without changing its behavior. -/
def instrument (v : Visitor σ β) : Visitor (σ × List VisitEvent) β where
  visitExpression := fun p e =>
    match v.visitExpression p.1 e with
    | (s1, fl) => ((s1, p.2 ++ [.expr e]), fl)
  visitStatement := fun p st =>
    match v.visitStatement p.1 st with
    | (s1, fl) => ((s1, p.2 ++ [.stmt st]), fl)
  visitCall := fun p c =>
    match v.visitCall p.1 c with
    | (s1, fl) => ((s1, p.2 ++ [.call c]), fl)
  visitFunction := fun p f =>
    match v.visitFunction p.1 f with
    | (s1, fl) => ((s1, p.2 ++ [.func f]), fl)
  visitGenerator := fun p g =>
    match v.visitGenerator p.1 g with
    | (s1, fl) => ((s1, p.2 ++ [.gen g]), fl)
  visitAsyncFunction := fun p af =>
    match v.visitAsyncFunction p.1 af with
    | (s1, fl) => ((s1, p.2 ++ [.afunc af]), fl)
  visitAsyncGenerator := fun p ag =>
    match v.visitAsyncGenerator p.1 ag with
    | (s1, fl) => ((s1, p.2 ++ [.agen ag]), fl)
  visitClass := fun p c =>
    match v.visitClass p.1 c with
    | (s1, fl) => ((s1, p.2 ++ [.cls c]), fl)
  visitLexicalDeclaration := fun p l =>
    match v.visitLexicalDeclaration p.1 l with
    | (s1, fl) => ((s1, p.2 ++ [.lexd l]), fl)

/-- Turn a read-only visitor into a mutable visitor that never replaces a
node; used to relate `visit_with_mut` to `visit_with`. -/
def liftMut (v : Visitor σ β) : VisitorMut σ β where
  visitExpressionMut := fun s e =>
    match v.visitExpression s e with
    | (s1, fl) => (s1, e, fl)
  visitStatementMut := fun s st =>
    match v.visitStatement s st with
    | (s1, fl) => (s1, st, fl)
  visitCallMut := fun s c =>
    match v.visitCall s c with
    | (s1, fl) => (s1, c, fl)
  visitFunctionMut := fun s f =>
    match v.visitFunction s f with
    | (s1, fl) => (s1, f, fl)
  visitGeneratorMut := fun s g =>
    match v.visitGenerator s g with
    | (s1, fl) => (s1, g, fl)
  visitAsyncFunctionMut := fun s af =>
    match v.visitAsyncFunction s af with
    | (s1, fl) => (s1, af, fl)
  visitAsyncGeneratorMut := fun s ag =>
    match v.visitAsyncGenerator s ag with
    | (s1, fl) => (s1, ag, fl)
  visitClassMut := fun s c =>
    match v.visitClass s c with
    | (s1, fl) => (s1, c, fl)
  visitLexicalDeclarationMut := fun s l =>
    match v.visitLexicalDeclaration s l with
    | (s1, fl) => (s1, l, fl)

/-- A visitor that does nothing and always continues (for witnesses). -/
def idleVisitor : Visitor Nat Nat where
  visitExpression := fun s _ => (s, .cont)
  visitStatement := fun s _ => (s, .cont)
  visitCall := fun s _ => (s, .cont)
  visitFunction := fun s _ => (s, .cont)
  visitGenerator := fun s _ => (s, .cont)
  visitAsyncFunction := fun s _ => (s, .cont)
  visitAsyncGenerator := fun s _ => (s, .cont)
  visitClass := fun s _ => (s, .cont)
  visitLexicalDeclaration := fun s _ => (s, .cont)

/-- A visitor that breaks immediately with payload 42 (for witnesses). -/
def breakerVisitor : Visitor Nat Nat where
  visitExpression := fun s _ => (s, .brk 42)
  visitStatement := fun s _ => (s, .brk 42)
  visitCall := fun s _ => (s, .brk 42)
  visitFunction := fun s _ => (s, .brk 42)
  visitGenerator := fun s _ => (s, .brk 42)
  visitAsyncFunction := fun s _ => (s, .brk 42)
  visitAsyncGenerator := fun s _ => (s, .brk 42)
  visitClass := fun s _ => (s, .brk 42)
  visitLexicalDeclaration := fun s _ => (s, .brk 42)

/-- A mutable visitor that replaces every expression with the constant
literal `9` and breaks with payload 7 (for witnesses). -/
def mutBreakerVisitor : VisitorMut Nat Nat where
  visitExpressionMut := fun s _ => (s + 1, Expression.literal 9, .brk 7)
  visitStatementMut := fun s st => (s, st, .brk 7)
  visitCallMut := fun s c => (s, c, .brk 7)
  visitFunctionMut := fun s f => (s, f, .brk 7)
  visitGeneratorMut := fun s g => (s, g, .brk 7)
  visitAsyncFunctionMut := fun s af => (s, af, .brk 7)
  visitAsyncGeneratorMut := fun s ag => (s, ag, .brk 7)
  visitClassMut := fun s c => (s, c, .brk 7)
  visitLexicalDeclarationMut := fun s l => (s, l, .brk 7)

/-- The interner's resolve side (`boa_interner::Interner`), as the map
from keys to identifier text; the AST core only reads it. -/
abbrev Interner := Sym → String

/-- Indentation prefix for a nesting depth (four spaces per level, as in
the source's `to_indented_string` convention). -/
def indentStr (n : Nat) : String :=
  String.join (List.replicate n "    ")

/-- Render an optional name through the interner (empty when absent). -/
def nameToString (itn : Interner) : Option Sym → String
  | some n => itn n
  | none => ""

mutual

/-- Modelled from the spec: the `Expression` renderer dispatcher (outside
the sample), with the sampled per-node renderers plugged in. -/
def Expression.to_interned_string (itn : Interner) : Expression → String
  | .identifier s => itn s
  | .literal v => toString v
  | .awaitE a => a.to_interned_string itn
  | .newE n => n.to_interned_string itn
  | .conditionalE c => c.to_interned_string itn
  | .callE c => c.to_interned_string itn

/-- Source `ToInternedString for Await` (`await.rs`): `await ` followed by the
target. -/
def AwaitExpr.to_interned_string (itn : Interner) : AwaitExpr → String
  | .mk t => "await " ++ t.to_interned_string itn

/-- Source `ToInternedString for New` (`new.rs`): `new ` followed by the inner
call. -/
def NewExpr.to_interned_string (itn : Interner) : NewExpr → String
  | .mk c => "new " ++ c.to_interned_string itn

/-- Source `ToInternedString for Conditional` (`conditional.rs`):
`cond ? if_true : if_false`. -/
def Conditional.to_interned_string (itn : Interner) : Conditional → String
  | .mk c t f =>
      c.to_interned_string itn ++ " ? " ++ t.to_interned_string itn
        ++ " : " ++ f.to_interned_string itn

/-- Modelled from the spec: the `Call` renderer (outside the sample) —
the function expression followed by the parenthesized argument list. -/
def Call.to_interned_string (itn : Interner) : Call → String
  | .mk f args => f.to_interned_string itn ++ "(" ++ args.joinArgs itn ++ ")"

/-- Comma-separated rendering of an argument list. -/
def ExprList.joinArgs (itn : Interner) : ExprList → String
  | .nil => ""
  | .cons h .nil => h.to_interned_string itn
  | .cons h t => h.to_interned_string itn ++ ", " ++ t.joinArgs itn

end

mutual

/-- Modelled from the spec: the `Statement` renderer dispatcher (outside
the sample); an expression statement gets a terminating `;`. -/
def Statement.to_indented_string (itn : Interner) (ind : Nat) : Statement → String
  | .expr e => e.to_interned_string itn ++ ";"
  | .whileLoop w => w.to_indented_string itn ind

/-- Source `ToIndentedString for WhileLoop` (`while_loop.rs`):
`while (cond) body`. -/
def WhileLoop.to_indented_string (itn : Interner) (ind : Nat) : WhileLoop → String
  | .mk c b =>
      "while (" ++ c.to_interned_string itn ++ ") "
        ++ b.to_indented_string itn ind

end

/-- Modelled from the spec: render a braced statement block, one statement
per line, indented one level deeper; the text always ends with the
closing brace. -/
def blockToString (itn : Interner) (ind : Nat) (stmts : List Statement) : String :=
  "\x7b\n"
    ++ String.join (stmts.map (fun st =>
        indentStr (ind + 1) ++ st.to_indented_string itn (ind + 1) ++ "\n"))
    ++ indentStr ind ++ "\x7d"

/-- Modelled from the spec: `ToIndentedString for Function` (outside the
sample) — a function declaration renders as header plus braced body, with
no trailing statement terminator. -/
def Function.to_indented_string (itn : Interner) (ind : Nat) (f : Function) : String :=
  "function " ++ nameToString itn f.name ++ "() " ++ blockToString itn ind f.body

/-- Modelled from the spec: `ToIndentedString for Generator` (outside the
sample). -/
def Generator.to_indented_string (itn : Interner) (ind : Nat) (g : Generator) : String :=
  "function* " ++ nameToString itn g.name ++ "() " ++ blockToString itn ind g.body

/-- Modelled from the spec: `ToIndentedString for AsyncFunction` (outside
the sample). -/
def AsyncFunction.to_indented_string (itn : Interner) (ind : Nat) (af : AsyncFunction) : String :=
  "async function " ++ nameToString itn af.name ++ "() " ++ blockToString itn ind af.body

/-- Modelled from the spec: `ToIndentedString for AsyncGenerator` (outside
the sample). -/
def AsyncGenerator.to_indented_string (itn : Interner) (ind : Nat) (ag : AsyncGenerator) : String :=
  "async function* " ++ nameToString itn ag.name ++ "() " ++ blockToString itn ind ag.body

/-- Modelled from the spec: `ToIndentedString for Class` (outside the
sample) — a class declaration renders as header plus braced body, with no
trailing statement terminator. -/
def Class.to_indented_string (itn : Interner) (ind : Nat) (c : Class) : String :=
  "class " ++ nameToString itn c.name ++ " \x7b\n"
    ++ String.join (c.fieldInitializers.map (fun e =>
        indentStr (ind + 1) ++ e.to_interned_string itn ++ "\n"))
    ++ indentStr ind ++ "\x7d"

mutual

/-- Modelled from the spec: render a binding — an identifier resolves
through the interner, a pattern renders braced. -/
def Binding.to_interned_string (itn : Interner) : Binding → String
  | .identifier i => itn i
  | .pattern p => p.to_interned_string itn

/-- Modelled from the spec: render a destructuring pattern. -/
def Pattern.to_interned_string (itn : Interner) : Pattern → String
  | .mk elems => "\x7b " ++ elems.joinElems itn ++ " \x7d"

/-- Comma-separated rendering of pattern elements. -/
def PatternElemList.joinElems (itn : Interner) : PatternElemList → String
  | .nil => ""
  | .cons h .nil => h.to_interned_string itn
  | .cons h t => h.to_interned_string itn ++ ", " ++ t.joinElems itn

/-- Modelled from the spec: render one pattern element. -/
def PatternElem.to_interned_string (itn : Interner) : PatternElem → String
  | .shorthand n => itn n
  | .keyed k b => itn k ++ ": " ++ b.to_interned_string itn

end

/-- Modelled from the spec: render one variable declarator. -/
def Variable.to_interned_string (itn : Interner) (v : Variable) : String :=
  v.binding.to_interned_string itn
    ++ (match v.init with
        | some e => " = " ++ e.to_interned_string itn
        | none => "")

/-- Modelled from the spec: `ToInternedString for LexicalDeclaration`
(outside the sample) — keyword plus comma-separated declarators, with no
trailing `;` of its own. -/
def LexicalDeclaration.to_interned_string (itn : Interner) (l : LexicalDeclaration) : String :=
  "let " ++ String.intercalate ", " (l.variable_list.map (Variable.to_interned_string itn))

/-- Source `ToIndentedString for Declaration` (`declaration/mod.rs`): dispatch to
the variant's renderer; only the `Lexical` arm pushes a trailing `;`
(`tap_mut(|s| s.push(';'))`). -/
def Declaration.to_indented_string (itn : Interner) (ind : Nat) : Declaration → String
  | .function f => f.to_indented_string itn ind
  | .generator g => g.to_indented_string itn ind
  | .asyncFunction af => af.to_indented_string itn ind
  | .asyncGenerator ag => ag.to_indented_string itn ind
  | .classD c => c.to_indented_string itn ind
  | .lexical l => l.to_interned_string itn ++ ";"

/-- Last character of a rendered string, if any. -/
def lastChar (s : String) : Option Char :=
  s.data.getLast?

/-- Unfolding the lexical-declaration fold of `lexically_declared_names`:
the fold appends, in order, one `(name, false)` entry per bound identifier
of each declarator. -/
theorem lexical_names_foldl (vs : List Variable) (acc : List (Sym × Bool)) :
    vs.foldl
      (fun names decl =>
        match decl.binding with
        | .identifier ident => names ++ [(ident, false)]
        | .pattern pat => names ++ (pat.idents.map (fun name => (name, false))))
      acc
    = acc ++ (vs.flatMap (fun d => d.binding.idents)).map (fun name => (name, false)) := by
  induction vs generalizing acc with
  | nil => simp
  | cons v vs ih =>
    cases hb : v.binding with
    | identifier i =>
        simp [List.foldl_cons, hb, ih, Binding.idents, List.append_assoc]
    | pattern p =>
        simp [List.foldl_cons, hb, ih, Binding.idents, List.append_assoc]

/-- Claim C1: for Function, Generator, AsyncFunction and AsyncGenerator
declarations, `contains_arguments` is false regardless of the body (even
one that references `arguments`), while Class and LexicalDeclaration
delegate to the recursive check on the owned body. -/
theorem declaration_contains_arguments_boundary :
    (∀ f : Function, (Declaration.function f).contains_arguments = false) ∧
    (∀ g : Generator, (Declaration.generator g).contains_arguments = false) ∧
    (∀ af : AsyncFunction, (Declaration.asyncFunction af).contains_arguments = false) ∧
    (∀ ag : AsyncGenerator, (Declaration.asyncGenerator ag).contains_arguments = false) ∧
    (∀ c : Class, (Declaration.classD c).contains_arguments = c.contains_arguments) ∧
    (∀ l : LexicalDeclaration,
      (Declaration.lexical l).contains_arguments = l.contains_arguments) ∧
    (Statement.expr (Expression.identifier SYM_ARGUMENTS)).contains_arguments = true ∧
    (Declaration.function
      ⟨some 5, [Statement.expr (Expression.identifier SYM_ARGUMENTS)]⟩).contains_arguments
      = false :=
  ⟨fun _ => rfl, fun _ => rfl, fun _ => rfl, fun _ => rfl, fun _ => rfl, fun _ => rfl,
    rfl, rfl⟩

/-- Claim C2: `lexically_declared_names` yields `[(name, true)]` for a
named Function, `[(name, false)]` for a named Generator / AsyncFunction /
AsyncGenerator / Class and `[]` when such a declaration is unnamed, and
for a LexicalDeclaration one `(name, false)` pair per bound identifier, in
binding order with nested patterns flattened. -/
theorem declaration_lexically_declared_names_spec :
    (∀ (name : Sym) (body : List Statement),
      (Declaration.function ⟨some name, body⟩).lexically_declared_names = [(name, true)]) ∧
    (∀ (name : Sym) (body : List Statement),
      (Declaration.generator ⟨some name, body⟩).lexically_declared_names = [(name, false)]) ∧
    (∀ body : List Statement,
      (Declaration.generator ⟨none, body⟩).lexically_declared_names = []) ∧
    (∀ (name : Sym) (body : List Statement),
      (Declaration.asyncFunction ⟨some name, body⟩).lexically_declared_names = [(name, false)]) ∧
    (∀ body : List Statement,
      (Declaration.asyncFunction ⟨none, body⟩).lexically_declared_names = []) ∧
    (∀ (name : Sym) (body : List Statement),
      (Declaration.asyncGenerator ⟨some name, body⟩).lexically_declared_names = [(name, false)]) ∧
    (∀ body : List Statement,
      (Declaration.asyncGenerator ⟨none, body⟩).lexically_declared_names = []) ∧
    (∀ (name : Sym) (fields : List Expression),
      (Declaration.classD ⟨some name, fields⟩).lexically_declared_names = [(name, false)]) ∧
    (∀ fields : List Expression,
      (Declaration.classD ⟨none, fields⟩).lexically_declared_names = []) ∧
    (∀ l : LexicalDeclaration,
      (Declaration.lexical l).lexically_declared_names
        = (l.variable_list.flatMap (fun d => d.binding.idents)).map (fun name => (name, false))) := by
  refine ⟨fun _ _ => rfl, fun _ _ => rfl, fun _ => rfl, fun _ _ => rfl, fun _ => rfl,
    fun _ _ => rfl, fun _ => rfl, fun _ _ => rfl, fun _ => rfl, fun l => ?_⟩
  simpa [Declaration.lexically_declared_names] using
    lexical_names_foldl l.variable_list []

/-- Claim C3: `contains_arguments` and `contains` are the boolean OR of
the same query over every owned child — condition, if_true and if_false
for a Conditional; condition and body for a WhileLoop; the single target
for an Await. -/
theorem catalog_contains_or_over_children :
    (∀ c t f : Expression,
      (Conditional.mk c t f).contains_arguments
        = (c.contains_arguments || t.contains_arguments || f.contains_arguments)) ∧
    (∀ (c t f : Expression) (sym : ContainsSymbol),
      (Conditional.mk c t f).contains sym
        = (c.contains sym || t.contains sym || f.contains sym)) ∧
    (∀ (c : Expression) (b : Statement),
      (WhileLoop.mk c b).contains_arguments
        = (c.contains_arguments || b.contains_arguments)) ∧
    (∀ (c : Expression) (b : Statement) (sym : ContainsSymbol),
      (WhileLoop.mk c b).contains sym = (c.contains sym || b.contains sym)) ∧
    (∀ t : Expression, (AwaitExpr.mk t).contains_arguments = t.contains_arguments) ∧
    (∀ (t : Expression) (sym : ContainsSymbol),
      (AwaitExpr.mk t).contains sym = t.contains sym) :=
  ⟨fun _ _ _ => rfl, fun _ _ _ _ => rfl, fun _ _ => rfl, fun _ _ _ => rfl,
    fun _ => rfl, fun _ _ => rfl⟩

/-- Claim C6: for a lexical declaration binding the destructuring pattern
`\x7ba, b: c\x7d`, `lexically_declared_names` is exactly
`[(a, false), (c, false)]` in left-to-right order — also when `a` and `c`
are the same identifier — and duplicate names from several declarators
are preserved, never deduplicated. -/
theorem lexical_names_object_pattern :
    (∀ a b c : Sym,
      (Declaration.lexical
        ⟨[⟨Binding.pattern (Pattern.mk
            (PatternElemList.cons (PatternElem.shorthand a)
              (PatternElemList.cons (PatternElem.keyed b (Binding.identifier c))
                PatternElemList.nil))), none⟩]⟩).lexically_declared_names
        = [(a, false), (c, false)]) ∧
    (∀ x : Sym,
      (Declaration.lexical
        ⟨[⟨Binding.identifier x, none⟩, ⟨Binding.identifier x, none⟩]⟩).lexically_declared_names
        = [(x, false), (x, false)]) :=
  ⟨fun _ _ _ => rfl, fun _ => rfl⟩

/-- Claim C7: a `New` node is only constructible from a `Call`, and its
accessors expose exactly the wrapped call's parts: `constructor()` is the
call's function expression and `args()` its argument list; for
`new Foo(1, 2)` the constructor is `Identifier(Foo)` and the args are
`[Literal(1), Literal(2)]`. -/
theorem new_wraps_call_accessors :
    (∀ n : NewExpr, ∃ c : Call,
      n = NewExpr.mk c ∧ n.constructor = c.function ∧ n.args = c.args) ∧
    ((NewExpr.mk (Call.mk (Expression.identifier 7)
        (ExprList.cons (Expression.literal 1)
          (ExprList.cons (Expression.literal 2) ExprList.nil)))).constructor
      = Expression.identifier 7) ∧
    ((NewExpr.mk (Call.mk (Expression.identifier 7)
        (ExprList.cons (Expression.literal 1)
          (ExprList.cons (Expression.literal 2) ExprList.nil)))).args
      = ExprList.cons (Expression.literal 1)
          (ExprList.cons (Expression.literal 2) ExprList.nil)) :=
  ⟨fun n => match n with | .mk c => ⟨c, rfl, rfl, rfl⟩, rfl, rfl⟩

/-- Claim C9: the generic `contains` query also answers false at every
Function, Generator, AsyncFunction and AsyncGenerator declaration,
regardless of the construct marker and of the body contents — the same
function-boundary opacity as `contains_arguments`. -/
theorem declaration_contains_boundary :
    (∀ (f : Function) (sym : ContainsSymbol),
      (Declaration.function f).contains sym = false) ∧
    (∀ (g : Generator) (sym : ContainsSymbol),
      (Declaration.generator g).contains sym = false) ∧
    (∀ (af : AsyncFunction) (sym : ContainsSymbol),
      (Declaration.asyncFunction af).contains sym = false) ∧
    (∀ (ag : AsyncGenerator) (sym : ContainsSymbol),
      (Declaration.asyncGenerator ag).contains sym = false) ∧
    ((Statement.expr (Expression.awaitE (AwaitExpr.mk (Expression.literal 0)))).contains
        ContainsSymbol.awaitExpression = true) ∧
    ((Declaration.function
        ⟨some 5, [Statement.expr (Expression.awaitE (AwaitExpr.mk (Expression.literal 0)))]⟩).contains
        ContainsSymbol.awaitExpression = false) :=
  ⟨fun _ _ => rfl, fun _ _ => rfl, fun _ _ => rfl, fun _ _ => rfl, by decide, rfl⟩

/-- Appending a string whose last character is `c` gives a string whose
last character is `c`. -/
theorem lastChar_append (s t : String) (c : Char) (h : lastChar t = some c) :
    lastChar (s ++ t) = some c := by
  unfold lastChar at *
  rw [String.data_append]
  rw [List.getLast?_append_of_ne_nil, h]
  intro hnil
  rw [hnil] at h
  simp at h

/-- Claim C4: a read-only traversal of a WhileLoop that never breaks
visits the condition exactly once, then the body exactly once, and
nothing else; likewise a Conditional's children are visited exactly once
each in left-to-right source order. -/
theorem visit_order_left_to_right {σ β σ2 β2 : Type}
    (w : WhileLoop) (v : Visitor σ β) (s s1 s2 : σ) (log : List VisitEvent)
    (hc : v.visitExpression s w.condition = (s1, ControlFlow.cont))
    (hb : v.visitStatement s1 w.body = (s2, ControlFlow.cont))
    (c : Conditional) (v2 : Visitor σ2 β2) (u u1 u2 u3 : σ2) (log2 : List VisitEvent)
    (h1 : v2.visitExpression u c.condition = (u1, ControlFlow.cont))
    (h2 : v2.visitExpression u1 c.if_true = (u2, ControlFlow.cont))
    (h3 : v2.visitExpression u2 c.if_false = (u3, ControlFlow.cont)) :
    w.visit_with (instrument v) (s, log)
      = ((s2, log ++ [VisitEvent.expr w.condition, VisitEvent.stmt w.body]),
          ControlFlow.cont) ∧
    c.visit_with (instrument v2) (u, log2)
      = ((u3, log2 ++ [VisitEvent.expr c.condition, VisitEvent.expr c.if_true,
            VisitEvent.expr c.if_false]),
          ControlFlow.cont) := by
  constructor
  · cases w with
    | mk cond body =>
      simp only [WhileLoop.condition] at hc
      simp only [WhileLoop.body] at hb
      simp [WhileLoop.visit_with, instrument, WhileLoop.condition, WhileLoop.body, hc, hb]
  · cases c with
    | mk cnd tr fl =>
      simp only [Conditional.condition] at h1
      simp only [Conditional.if_true] at h2
      simp only [Conditional.if_false] at h3
      simp [Conditional.visit_with, instrument, Conditional.condition,
        Conditional.if_true, Conditional.if_false, h1, h2, h3]

/-- Witness for C4: the idle visitor on `while (a) 1;` and on `a ? b : c`
logs each child exactly once, in source order. -/
theorem visit_order_left_to_right_witness :
    idleVisitor.visitExpression 0 (Expression.identifier 3) = (0, ControlFlow.cont) ∧
    idleVisitor.visitStatement 0 (Statement.expr (Expression.literal 1))
      = (0, ControlFlow.cont) ∧
    (WhileLoop.mk (Expression.identifier 3)
        (Statement.expr (Expression.literal 1))).visit_with (instrument idleVisitor) (0, [])
      = ((0, [VisitEvent.expr (Expression.identifier 3),
              VisitEvent.stmt (Statement.expr (Expression.literal 1))]),
          ControlFlow.cont) ∧
    (Conditional.mk (Expression.identifier 4) (Expression.identifier 5)
        (Expression.identifier 6)).visit_with (instrument idleVisitor) (0, [])
      = ((0, [VisitEvent.expr (Expression.identifier 4),
              VisitEvent.expr (Expression.identifier 5),
              VisitEvent.expr (Expression.identifier 6)]),
          ControlFlow.cont) :=
  ⟨rfl, rfl,
    (visit_order_left_to_right
      (WhileLoop.mk (Expression.identifier 3) (Statement.expr (Expression.literal 1)))
      idleVisitor 0 0 0 [] rfl rfl
      (Conditional.mk (Expression.identifier 4) (Expression.identifier 5)
        (Expression.identifier 6))
      idleVisitor 0 0 0 0 [] rfl rfl rfl).1,
    (visit_order_left_to_right
      (WhileLoop.mk (Expression.identifier 3) (Statement.expr (Expression.literal 1)))
      idleVisitor 0 0 0 [] rfl rfl
      (Conditional.mk (Expression.identifier 4) (Expression.identifier 5)
        (Expression.identifier 6))
      idleVisitor 0 0 0 0 [] rfl rfl rfl).2⟩

/-- Claim C5: when visiting a child breaks, no later sibling is visited —
a break on a Conditional's condition skips if_true and if_false (the log
gains only the condition), and a break on a WhileLoop's condition under
the mutable traversal skips the body — and the exact payload (and any
replacement already made) propagates unchanged to the caller. -/
theorem visit_break_short_circuit {σ β σ2 β2 : Type}
    (c : Conditional) (v : Visitor σ β) (s s1 : σ) (p : β) (log : List VisitEvent)
    (hc : v.visitExpression s c.condition = (s1, ControlFlow.brk p))
    (w : WhileLoop) (vm : VisitorMut σ2 β2) (t t1 : σ2) (e1 : Expression) (q : β2)
    (hw : vm.visitExpressionMut t w.condition = (t1, e1, ControlFlow.brk q)) :
    c.visit_with v s = (s1, ControlFlow.brk p) ∧
    c.visit_with (instrument v) (s, log)
      = ((s1, log ++ [VisitEvent.expr c.condition]), ControlFlow.brk p) ∧
    w.visit_with_mut vm t = (t1, WhileLoop.mk e1 w.body, ControlFlow.brk q) := by
  refine ⟨?_, ?_, ?_⟩
  · cases c with
    | mk cnd tr fl =>
      simp only [Conditional.condition] at hc
      simp [Conditional.visit_with, Conditional.condition, Conditional.if_true,
        Conditional.if_false, hc]
  · cases c with
    | mk cnd tr fl =>
      simp only [Conditional.condition] at hc
      simp [Conditional.visit_with, instrument, Conditional.condition,
        Conditional.if_true, Conditional.if_false, hc]
  · cases w with
    | mk cnd body =>
      simp only [WhileLoop.condition] at hw
      simp [WhileLoop.visit_with_mut, WhileLoop.condition, WhileLoop.body, hw]

/-- Witness for C5: a breaking read-only visitor on `a ? b : c` returns
payload 42 having visited only the condition, and a breaking mutable
visitor on `while (a) 1;` returns payload 7, keeping the replacement it
made to the condition and never visiting the body. -/
theorem visit_break_short_circuit_witness :
    breakerVisitor.visitExpression 0 (Expression.identifier 4) = (0, ControlFlow.brk 42) ∧
    mutBreakerVisitor.visitExpressionMut 0 (Expression.identifier 3)
      = (1, Expression.literal 9, ControlFlow.brk 7) ∧
    (Conditional.mk (Expression.identifier 4) (Expression.identifier 5)
        (Expression.identifier 6)).visit_with breakerVisitor 0 = (0, ControlFlow.brk 42) ∧
    (Conditional.mk (Expression.identifier 4) (Expression.identifier 5)
        (Expression.identifier 6)).visit_with (instrument breakerVisitor) (0, [])
      = ((0, [VisitEvent.expr (Expression.identifier 4)]), ControlFlow.brk 42) ∧
    (WhileLoop.mk (Expression.identifier 3)
        (Statement.expr (Expression.literal 1))).visit_with_mut mutBreakerVisitor 0
      = (1, WhileLoop.mk (Expression.literal 9) (Statement.expr (Expression.literal 1)),
          ControlFlow.brk 7) :=
  ⟨rfl, rfl,
    (visit_break_short_circuit
      (Conditional.mk (Expression.identifier 4) (Expression.identifier 5)
        (Expression.identifier 6)) breakerVisitor 0 0 42 [] rfl
      (WhileLoop.mk (Expression.identifier 3) (Statement.expr (Expression.literal 1)))
      mutBreakerVisitor 0 1 (Expression.literal 9) 7 rfl).1,
    (visit_break_short_circuit
      (Conditional.mk (Expression.identifier 4) (Expression.identifier 5)
        (Expression.identifier 6)) breakerVisitor 0 0 42 [] rfl
      (WhileLoop.mk (Expression.identifier 3) (Statement.expr (Expression.literal 1)))
      mutBreakerVisitor 0 1 (Expression.literal 9) 7 rfl).2.1,
    (visit_break_short_circuit
      (Conditional.mk (Expression.identifier 4) (Expression.identifier 5)
        (Expression.identifier 6)) breakerVisitor 0 0 42 [] rfl
      (WhileLoop.mk (Expression.identifier 3) (Statement.expr (Expression.literal 1)))
      mutBreakerVisitor 0 1 (Expression.literal 9) 7 rfl).2.2⟩

/-- Claim C10: for Conditional, WhileLoop, Await, New and Declaration, the
mutable traversal descends into exactly the same children, in the same
order and with the same break short-circuiting, as the read-only
traversal: under a non-replacing lift of any read-only visitor the two
agree in state and control flow and leave the node unchanged. -/
theorem mut_traversal_refines_readonly {σ β : Type} (v : Visitor σ β) (s : σ)
    (c : Conditional) (w : WhileLoop) (a : AwaitExpr) (n : NewExpr) (d : Declaration) :
    c.visit_with_mut (liftMut v) s = ((c.visit_with v s).1, c, (c.visit_with v s).2) ∧
    w.visit_with_mut (liftMut v) s = ((w.visit_with v s).1, w, (w.visit_with v s).2) ∧
    a.visit_with_mut (liftMut v) s = ((a.visit_with v s).1, a, (a.visit_with v s).2) ∧
    n.visit_with_mut (liftMut v) s = ((n.visit_with v s).1, n, (n.visit_with v s).2) ∧
    d.visit_with_mut (liftMut v) s = ((d.visit_with v s).1, d, (d.visit_with v s).2) := by
  refine ⟨?_, ?_, ?_, ?_, ?_⟩
  · cases c with
    | mk cnd tr fl =>
      simp only [Conditional.visit_with, Conditional.visit_with_mut, liftMut,
        Conditional.condition, Conditional.if_true, Conditional.if_false]
      rcases hc : v.visitExpression s cnd with ⟨s1, fl1⟩
      cases fl1 with
      | brk b => simp [hc]
      | cont =>
        rcases ht : v.visitExpression s1 tr with ⟨s2, fl2⟩
        cases fl2 with
        | brk b => simp [hc, ht]
        | cont =>
          rcases hf : v.visitExpression s2 fl with ⟨s3, fl3⟩
          cases fl3 <;> simp [hc, ht, hf]
  · cases w with
    | mk cnd body =>
      simp only [WhileLoop.visit_with, WhileLoop.visit_with_mut, liftMut,
        WhileLoop.condition, WhileLoop.body]
      rcases hc : v.visitExpression s cnd with ⟨s1, fl1⟩
      cases fl1 with
      | brk b => simp [hc]
      | cont =>
        rcases hb : v.visitStatement s1 body with ⟨s2, fl2⟩
        cases fl2 <;> simp [hc, hb]
  · cases a with
    | mk tgt =>
      simp only [AwaitExpr.visit_with, AwaitExpr.visit_with_mut, liftMut, AwaitExpr.target]
  · cases n with
    | mk cl =>
      simp only [NewExpr.visit_with, NewExpr.visit_with_mut, liftMut, NewExpr.call]
  · cases d with
    | function f =>
      simp only [Declaration.visit_with, Declaration.visit_with_mut, liftMut]
    | generator g =>
      simp only [Declaration.visit_with, Declaration.visit_with_mut, liftMut]
    | asyncFunction af =>
      simp only [Declaration.visit_with, Declaration.visit_with_mut, liftMut]
    | asyncGenerator ag =>
      simp only [Declaration.visit_with, Declaration.visit_with_mut, liftMut]
    | classD cl =>
      simp only [Declaration.visit_with, Declaration.visit_with_mut, liftMut]
    | lexical ld =>
      simp only [Declaration.visit_with, Declaration.visit_with_mut, liftMut]

/-- Claim C8: rendering a Declaration appends a trailing `;` exactly when
it is a LexicalDeclaration; function-family and class declarations end
with their closing brace, never with a statement terminator. -/
theorem declaration_render_terminator (itn : Interner) (ind : Nat) :
    ∀ d : Declaration,
      lastChar (d.to_indented_string itn ind) = some ';'
        ↔ ∃ l, d = Declaration.lexical l := by
  intro d
  cases d with
  | function f =>
    have hw : lastChar ((Declaration.function f).to_indented_string itn ind)
        = some '}' := by
      simp only [Declaration.to_indented_string, Function.to_indented_string,
        blockToString]
      exact lastChar_append _ _ _ (lastChar_append _ _ _ rfl)
    rw [hw]
    simp
  | generator g =>
    have hw : lastChar ((Declaration.generator g).to_indented_string itn ind)
        = some '}' := by
      simp only [Declaration.to_indented_string, Generator.to_indented_string,
        blockToString]
      exact lastChar_append _ _ _ (lastChar_append _ _ _ rfl)
    rw [hw]
    simp
  | asyncFunction af =>
    have hw : lastChar ((Declaration.asyncFunction af).to_indented_string itn ind)
        = some '}' := by
      simp only [Declaration.to_indented_string, AsyncFunction.to_indented_string,
        blockToString]
      exact lastChar_append _ _ _ (lastChar_append _ _ _ rfl)
    rw [hw]
    simp
  | asyncGenerator ag =>
    have hw : lastChar ((Declaration.asyncGenerator ag).to_indented_string itn ind)
        = some '}' := by
      simp only [Declaration.to_indented_string, AsyncGenerator.to_indented_string,
        blockToString]
      exact lastChar_append _ _ _ (lastChar_append _ _ _ rfl)
    rw [hw]
    simp
  | classD cl =>
    have hw : lastChar ((Declaration.classD cl).to_indented_string itn ind)
        = some '}' := by
      simp only [Declaration.to_indented_string, Class.to_indented_string]
      exact lastChar_append _ _ _ rfl
    rw [hw]
    simp
  | lexical l =>
    have hw : lastChar ((Declaration.lexical l).to_indented_string itn ind)
        = some ';' := by
      simp only [Declaration.to_indented_string]
      exact lastChar_append _ _ _ rfl
    rw [hw]
    simp

/-- Witness for C8 (universally quantified over the declaration, but
closed here at concrete inputs for both directions): a one-variable `let`
renders with a trailing `;`, a function declaration does not. -/
theorem declaration_render_terminator_witness :
    (lastChar ((Declaration.lexical
        ⟨[⟨Binding.identifier 2, none⟩]⟩).to_indented_string (fun _ => "a") 0)
      = some ';' ↔ ∃ l, Declaration.lexical ⟨[⟨Binding.identifier 2, none⟩]⟩
        = Declaration.lexical l) ∧
    (lastChar ((Declaration.function
        ⟨some 2, []⟩).to_indented_string (fun _ => "a") 0)
      = some ';' ↔ ∃ l, Declaration.function ⟨some 2, []⟩ = Declaration.lexical l) :=
  ⟨declaration_render_terminator (fun _ => "a") 0
      (Declaration.lexical ⟨[⟨Binding.identifier 2, none⟩]⟩),
    declaration_render_terminator (fun _ => "a") 0
      (Declaration.function ⟨some 2, []⟩)⟩

end BoaAst
